import Mathlib

/-!
Verification of the PPU core of a Game Boy emulator (src/ppu.rs).

The Rust code is shallowly embedded: 8-bit registers become naturals kept
below 256 (`% 256` marks the places where the source's `u8` arithmetic
wraps or truncates), the byte arrays `memory`/`oam` and the 160 by 144
`viewport` become total functions, `Color` values are represented by the
shade index the palette decoder produces (`Color::WHITE` is 0, the shade
for palette value k is k), and the two `panic!` sites of the bus accessors
are modelled by an `Option` result (`none` = addressing fault).

Two ghost event counters that are not in the source are added to the
state so that counting claims can be stated: `stepCount` counts
invocations of the scheduler `step`, and `irqCount` counts successful
stat-interrupt requests (each successful request sets the `stat` latch).
Neither counter influences any other field.
-/

/-- Mirror of `struct PPUInterrupts` (ppu.rs). -/
structure PPUInterrupts where
  vblank : Bool
  stat : Bool
deriving DecidableEq

/-- Mirror of `struct PPURegisters` (ppu.rs); every `u8` field is a natural kept below 256. -/
structure PPURegisters where
  LCDC : ℕ
  LY : ℕ
  LYC : ℕ
  STAT : ℕ
  SCY : ℕ
  SCX : ℕ
  WY : ℕ
  WX : ℕ
  WC : ℕ
  BGP : ℕ
  OBP0 : ℕ
  OBP1 : ℕ
  interrupts : PPUInterrupts
deriving DecidableEq

/-- Mirror of `struct PPU` (ppu.rs). The `display` field (an external SDL
window) is dropped; its only interaction with the core, `display.draw`,
happens at the frame wrap and has no effect on core state. `stepCount` and
`irqCount` are ghost event counters (see the module comment). -/
structure PPU where
  memory : ℕ → ℕ
  oam : ℕ → ℕ
  viewport : ℕ → ℕ → ℕ
  registers : PPURegisters
  enableDisplayEvents : Bool
  blockStatIrqs : Bool
  cycles : ℕ
  stepCount : ℕ
  irqCount : ℕ

/-- Mirror of `PPU::new` / `PPURegisters::new`: everything zero except `STAT = 0x80`,
viewport all `Color::WHITE` (shade 0). -/
def initPPU : PPU where
  memory := fun _ => 0
  oam := fun _ => 0
  viewport := fun _ _ => 0
  registers :=
    { LCDC := 0, LY := 0, LYC := 0, STAT := 0x80, SCY := 0, SCX := 0,
      WY := 0, WX := 0, WC := 0, BGP := 0, OBP0 := 0, OBP1 := 0,
      interrupts := { vblank := false, stat := false } }
  enableDisplayEvents := false
  blockStatIrqs := false
  cycles := 0
  stepCount := 0
  irqCount := 0

/-- Mirror of `PPU::read_byte`; the `panic!` arm is `none`. -/
def readByte (p : PPU) (addr : ℕ) : Option ℕ :=
  if 0x8000 ≤ addr ∧ addr ≤ 0x9FFF then some (p.memory (addr - 0x8000))
  else if 0xFE00 ≤ addr ∧ addr ≤ 0xFE9F then some (p.oam (addr - 0xFE00))
  else if addr = 0xFF40 then some p.registers.LCDC
  else if addr = 0xFF41 then some p.registers.STAT
  else if addr = 0xFF42 then some p.registers.SCY
  else if addr = 0xFF43 then some p.registers.SCX
  else if addr = 0xFF44 then some p.registers.LY
  else if addr = 0xFF45 then some p.registers.LYC
  else if addr = 0xFF47 then some p.registers.BGP
  else if addr = 0xFF48 then some p.registers.OBP0
  else if addr = 0xFF49 then some p.registers.OBP1
  else if addr = 0xFF4A then some p.registers.WY
  else if addr = 0xFF4B then some p.registers.WX
  else none

/-- Mirror of `PPU::write_byte`; the `panic!` arm is `none`. The bus value is a
`u8`, hence the `% 256`. In the `STAT` arm, `val & !7` on `u8` is `val &&& 0xF8`. -/
def writeByte (p : PPU) (addr v : ℕ) : Option PPU :=
  let val := v % 256
  if 0x8000 ≤ addr ∧ addr ≤ 0x9FFF then
    some { p with memory := Function.update p.memory (addr - 0x8000) val }
  else if 0xFE00 ≤ addr ∧ addr ≤ 0xFE9F then
    some { p with oam := Function.update p.oam (addr - 0xFE00) val }
  else if addr = 0xFF40 then some { p with registers.LCDC := val }
  else if addr = 0xFF41 then
    some { p with registers.STAT := p.registers.STAT ||| (val &&& 0xF8) }
  else if addr = 0xFF42 then some { p with registers.SCY := val }
  else if addr = 0xFF43 then some { p with registers.SCX := val }
  else if addr = 0xFF45 then some { p with registers.LYC := val }
  else if addr = 0xFF47 then some { p with registers.BGP := val }
  else if addr = 0xFF48 then some { p with registers.OBP0 := val }
  else if addr = 0xFF49 then some { p with registers.OBP1 := val }
  else if addr = 0xFF4A then some { p with registers.WY := val }
  else if addr = 0xFF4B then some { p with registers.WX := val }
  else none

/-- `read_byte` specialised to the video-memory window `0x8000 ..= 0x9FFF`; every
`read_byte` call made internally by the renderer lands in that window. -/
def vram (p : PPU) (addr : ℕ) : ℕ := p.memory (addr - 0x8000)

/-- Mirror of `PPU::decode_palette`: the 2-bit field of `BGP` at position
`2*color` selects one of the four shades; the shade is represented by the
field value itself (0 = `Color::WHITE`, 3 = `Color::BLACK`), so the
unreachable `panic!` arm disappears. -/
def decodePalette (p : PPU) (color : ℕ) : ℕ :=
  (p.registers.BGP >>> (2 * color)) &&& 0b11

/-- Mirror of `PPU::decode_tile_row`, as the function sending the column index
`j` to `row[j]` (the source fills `row[7 - i]` from bit `i`, so bit `7 - j`
of each plane gives column `j`). `0x80 = 128`, and `LCDC & (1 << 4)` selects
the tile-data base. -/
def tilePixel (p : PPU) (tileNum rowNum j : ℕ) : ℕ :=
  let off := (if p.registers.LCDC &&& 16 = 0 ∧ tileNum ≤ 128 then 0x9000 else 0x8000)
    + tileNum * 16 + 2 * rowNum
  let hi := vram p (off + 1)
  let lo := vram p off
  (((hi >>> (7 - j)) &&& 1) <<< 1) ||| ((lo >>> (7 - j)) &&& 1)

/-- One store `self.viewport[r][c] = v`. -/
def writePixel (p : PPU) (r c v : ℕ) : PPU :=
  { p with viewport := fun a b => if a = r ∧ b = c then v else p.viewport a b }

/-- Inner background loop of `PPU::draw_line` (`for j in 0u8..8`), over an
explicit list of column indices. `bg_x` is the `u8` value
`(8*i + j).wrapping_sub(SCX)`. -/
def bgInner (i : ℕ) (row : ℕ → ℕ) : List ℕ → PPU → PPU
  | [], st => st
  | j :: js, st =>
    let bgX := (8 * i + j + 256 - st.registers.SCX) % 256
    bgInner i row js
      (if bgX < 160 then
        writePixel st st.registers.LY bgX (decodePalette st (row j))
      else st)

/-- Tilemap base for the background layer (`LCDC & (1 << 3)`). -/
def bgMapBase (p : PPU) : ℕ :=
  if p.registers.LCDC &&& 8 ≠ 0 then 0x9C00 else 0x9800

/-- Outer background loop of `PPU::draw_line` (`for i in 0u8..32`): fetch the
tile index for slot `i`, decode its row at `bg_y % 8`, run the inner loop. -/
def bgSlots (base bgY : ℕ) : List ℕ → PPU → PPU
  | [], st => st
  | i :: is, st =>
    let tileNum := vram st (base + 32 * (bgY / 8) + i)
    bgSlots base bgY is
      (bgInner i (fun j => tilePixel st tileNum (bgY % 8) j) (List.range 8) st)

/-- Background layer of `PPU::draw_line`; `bg_y` is the `u8` value
`SCY.wrapping_add(LY)`. -/
def bgPass (p : PPU) : PPU :=
  bgSlots (bgMapBase p) ((p.registers.SCY + p.registers.LY) % 256) (List.range 32) p

/-- Inner window loop of `PPU::draw_line` (`for j in 0..8`), carrying the
`window_visible` flag. `win_x` is computed in `usize`, without wrap. -/
def winInner (i : ℕ) (row : ℕ → ℕ) : List ℕ → PPU → Bool → PPU × Bool
  | [], st, vis => (st, vis)
  | j :: js, st, vis =>
    let winX := 8 * i + j + st.registers.WX
    if 7 ≤ winX ∧ winX < 160 then
      winInner i row js
        (writePixel st st.registers.LY (winX - 7) (decodePalette st (row j))) true
    else
      winInner i row js st vis

/-- Tilemap base for the window layer (`LCDC & (1 << 6)`). -/
def winMapBase (p : PPU) : ℕ :=
  if p.registers.LCDC &&& 64 ≠ 0 then 0x9C00 else 0x9800

/-- Outer window loop of `PPU::draw_line`: tile index comes from `WC / 8`,
the decoded row from `WC % 8`. -/
def winSlots (base : ℕ) : List ℕ → PPU → Bool → PPU × Bool
  | [], st, vis => (st, vis)
  | i :: is, st, vis =>
    let tileNum := vram st (base + 32 * (st.registers.WC / 8) + i)
    let r := winInner i (fun j => tilePixel st tileNum (st.registers.WC % 8) j)
      (List.range 8) st vis
    winSlots base is r.1 r.2

/-- Window layer of `PPU::draw_line`: run the slots with the flag starting
`false`; if any pixel was placed, `WC += 1` (a `u8` increment, hence `% 256`). -/
def winPass (p : PPU) : PPU :=
  let r := winSlots (winMapBase p) (List.range 32) p false
  if r.2 then { r.1 with registers.WC := (r.1.registers.WC + 1) % 256 } else r.1

/-- Mirror of `PPU::draw_line`: nothing unless `LCDC` bit 7; background layer
if `LCDC` bit 0; window layer if `LCDC` bit 5 and `LY >= WY`. -/
def drawLine (p : PPU) : PPU :=
  if p.registers.LCDC &&& 128 ≠ 0 then
    let p1 := if p.registers.LCDC &&& 1 ≠ 0 then bgPass p else p
    if p1.registers.LCDC &&& 32 ≠ 0 ∧ p1.registers.WY ≤ p1.registers.LY then
      winPass p1
    else p1
  else p

/-- Mirror of `PPU::req_stat_interrupt`: succeeds only if irqs are not blocked,
the enable bit `STAT & (1 << bit)` is set, and `bit` lies in `3 ..= 6`; on
success it blocks further requests, sets the `stat` latch, and bumps the ghost
counter `irqCount`. -/
def reqStatInterrupt (p : PPU) (bit : ℕ) : PPU :=
  if p.blockStatIrqs = false ∧ (p.registers.STAT &&& (1 <<< bit)) ≠ 0 ∧ 3 ≤ bit ∧ bit ≤ 6 then
    { p with blockStatIrqs := true, irqCount := p.irqCount + 1,
             registers.interrupts.stat := true }
  else p

/-- Mirror of `PPU::set_mode`: `STAT &= !0b11` on `u8` is `&&& 0xFC`. -/
def setMode (p : PPU) (mode : ℕ) : PPU :=
  let q := { p with registers.STAT := (p.registers.STAT &&& 0xFC) ||| (mode &&& 0b11) }
  if mode < 3 then reqStatInterrupt q (mode + 3) else q

/-- The scanline the scheduler derives from the cycle counter:
`(self.cycles / 456) as u8`. -/
def scanlineOf (c : ℕ) : ℕ := c / 456 % 256

/-- The `// Start of a line` block of `PPU::step`, followed by the
`self.registers.LY = scanline` store; `scanline` is the caller's
`(self.cycles / 456) as u8`. -/
def lineStart (p : PPU) (scanline : ℕ) : PPU :=
  let p2 : PPU :=
    if scanline ≠ p.registers.LY then
      let q : PPU := { p with blockStatIrqs := false }
      if scanline = 0 then { q with registers.WC := 0 } else q
    else p
  { p2 with registers.LY := scanline }

/-- The `// Check for LY = LYC` block of `PPU::step`; `clocks` is the caller's
`self.cycles % 456`, and `STAT &= !(1 << 2)` on `u8` is `&&& 0xFB`. -/
def lycCheck (p : PPU) (clocks : ℕ) : PPU :=
  let coincidence := p.registers.LY = p.registers.LYC
  let p4 : PPU := if coincidence ∧ clocks = 0 then reqStatInterrupt p 6 else p
  { p4 with registers.STAT :=
    (p4.registers.STAT &&& 0xFB) ||| ((if coincidence then (1 : ℕ) else 0) <<< 2) }

/-- The `// PPU Mode switching` and `// V-blank` blocks of `PPU::step`. -/
def modeSwitch (p : PPU) (clocks : ℕ) : PPU :=
  if p.registers.LY < 144 then
    if clocks = 0 then setMode p 2
    else if clocks = 80 then drawLine (setMode p 3)
    else if clocks = 252 then setMode p 0
    else p
  else if p.registers.LY = 144 ∧ clocks = 0 then
    setMode { p with registers.interrupts.vblank := true } 1
  else p

/-- Mirror of `PPU::step`: bump the ghost counter `stepCount`, then run the
three blocks in source order. `clocks` and `scanline` are derived once from
the cycle counter, which no block modifies. -/
def step (p0 : PPU) : PPU :=
  let p1 : PPU := { p0 with stepCount := p0.stepCount + 1 }
  modeSwitch (lycCheck (lineStart p1 (scanlineOf p1.cycles)) (p1.cycles % 456))
    (p1.cycles % 456)

/-- One iteration of the loop body of `PPU::draw`: `cycles += 4`, wrap past a
full frame (70224), then `step`. The external `display.draw` call and the
`enable_display_events` flag at the wrap are kept. -/
def tick (p : PPU) : PPU :=
  let q := { p with cycles := p.cycles + 4 }
  let r :=
    if 70224 < q.cycles then
      { q with cycles := q.cycles - 70224, enableDisplayEvents := true }
    else q
  step r

/-- Mirror of `PPU::draw`, the frame pump: the loop runs `cycles_passed / 4`
times. -/
def draw (p : PPU) (cyclesPassed : ℕ) : PPU :=
  Nat.iterate tick (cyclesPassed / 4) p

/-! ### Shape lemmas: the render passes touch only the viewport (and, for the
window pass, `WC`); every other field is preserved. -/

theorem shape_viewport_registers {p q : PPU} (h : ∃ w, q = { p with viewport := w }) :
    q.registers = p.registers := by
  obtain ⟨w, rfl⟩ := h; rfl

theorem shape_viewport_memory {p q : PPU} (h : ∃ w, q = { p with viewport := w }) :
    q.memory = p.memory := by
  obtain ⟨w, rfl⟩ := h; rfl

theorem shape_trans {p q r : PPU} (h1 : ∃ w, q = { p with viewport := w })
    (h2 : ∃ w, r = { q with viewport := w }) : ∃ w, r = { p with viewport := w } := by
  obtain ⟨w1, rfl⟩ := h1; obtain ⟨w2, rfl⟩ := h2; exact ⟨w2, rfl⟩

theorem writePixel_shape (p : PPU) (r c v : ℕ) :
    ∃ w, writePixel p r c v = { p with viewport := w } := ⟨_, rfl⟩

theorem bgInner_shape (i : ℕ) (row : ℕ → ℕ) :
    ∀ (l : List ℕ) (st : PPU), ∃ w, bgInner i row l st = { st with viewport := w } := by
  intro l
  induction l with
  | nil => exact fun st => ⟨st.viewport, rfl⟩
  | cons j js ih =>
    intro st
    show ∃ w, bgInner i row js _ = _
    by_cases h : (8 * i + j + 256 - st.registers.SCX) % 256 < 160
    · simp only [if_pos h]
      exact shape_trans (writePixel_shape st st.registers.LY _ _)
        (ih (writePixel st st.registers.LY _ _)) |>.imp fun w hw => by
          rw [← hw]
    · simp only [if_neg h]; exact ih st

theorem bgSlots_shape (base bgY : ℕ) :
    ∀ (l : List ℕ) (st : PPU), ∃ w, bgSlots base bgY l st = { st with viewport := w } := by
  intro l
  induction l with
  | nil => exact fun st => ⟨st.viewport, rfl⟩
  | cons i is ih =>
    intro st
    show ∃ w, bgSlots base bgY is _ = _
    exact shape_trans (bgInner_shape i _ (List.range 8) st) (ih _) |>.imp fun w hw => by
      rw [← hw]

theorem bgPass_shape (p : PPU) : ∃ w, bgPass p = { p with viewport := w } :=
  bgSlots_shape _ _ (List.range 32) p

theorem winInner_shape (i : ℕ) (row : ℕ → ℕ) :
    ∀ (l : List ℕ) (st : PPU) (vis : Bool),
      ∃ w, (winInner i row l st vis).1 = { st with viewport := w } := by
  intro l
  induction l with
  | nil => exact fun st vis => ⟨st.viewport, rfl⟩
  | cons j js ih =>
    intro st vis
    show ∃ w, (if _ ∧ _ then winInner i row js _ true else winInner i row js st vis).1 = _
    by_cases h : 7 ≤ 8 * i + j + st.registers.WX ∧ 8 * i + j + st.registers.WX < 160
    · simp only [if_pos h]
      exact shape_trans (writePixel_shape st st.registers.LY _ _)
        (ih (writePixel st st.registers.LY _ _) true) |>.imp fun w hw => by
          rw [← hw]
    · simp only [if_neg h]; exact ih st vis

theorem winSlots_shape (base : ℕ) :
    ∀ (l : List ℕ) (st : PPU) (vis : Bool),
      ∃ w, (winSlots base l st vis).1 = { st with viewport := w } := by
  intro l
  induction l with
  | nil => exact fun st vis => ⟨st.viewport, rfl⟩
  | cons i is ih =>
    intro st vis
    show ∃ w, (winSlots base is _ _).1 = _
    exact shape_trans (winInner_shape i _ (List.range 8) st vis) (ih _ _) |>.imp fun w hw => by
      rw [← hw]

theorem winPass_shape (p : PPU) :
    ∃ w wc, winPass p = { p with viewport := w, registers.WC := wc } := by
  unfold winPass
  obtain ⟨w, hw⟩ := winSlots_shape (winMapBase p) (List.range 32) p false
  by_cases h : (winSlots (winMapBase p) (List.range 32) p false).2 = true
  · simp only [h, if_pos]
    exact ⟨w, _, by rw [hw]⟩
  · simp only [Bool.not_eq_true] at h
    simp only [h, Bool.false_eq_true, if_neg, not_false_iff]
    exact ⟨w, p.registers.WC, by rw [hw]⟩

theorem drawLine_shape (p : PPU) :
    ∃ w wc, drawLine p = { p with viewport := w, registers.WC := wc } := by
  unfold drawLine
  by_cases h7 : p.registers.LCDC &&& 128 ≠ 0
  · simp only [if_pos h7]
    by_cases h0 : p.registers.LCDC &&& 1 ≠ 0
    · simp only [if_pos h0]
      obtain ⟨w, hw⟩ := bgPass_shape p
      by_cases hw5 : (bgPass p).registers.LCDC &&& 32 ≠ 0 ∧
          (bgPass p).registers.WY ≤ (bgPass p).registers.LY
      · simp only [if_pos hw5]
        obtain ⟨w2, wc2, hww⟩ := winPass_shape (bgPass p)
        exact ⟨w2, wc2, by rw [hww, hw]⟩
      · simp only [if_neg hw5]
        exact ⟨w, p.registers.WC, by rw [hw]⟩
    · simp only [if_neg h0]
      by_cases hw5 : p.registers.LCDC &&& 32 ≠ 0 ∧ p.registers.WY ≤ p.registers.LY
      · simp only [if_pos hw5]
        obtain ⟨w2, wc2, hww⟩ := winPass_shape p
        exact ⟨w2, wc2, hww⟩
      · simp only [if_neg hw5]
        exact ⟨p.viewport, p.registers.WC, rfl⟩
  · simp only [if_neg h7]
    exact ⟨p.viewport, p.registers.WC, rfl⟩

/-! ### Projections through the atomic scheduler operations -/

@[simp] theorem reqStat_LY (p : PPU) (b : ℕ) :
    (reqStatInterrupt p b).registers.LY = p.registers.LY := by
  unfold reqStatInterrupt; split <;> rfl

@[simp] theorem reqStat_LYC (p : PPU) (b : ℕ) :
    (reqStatInterrupt p b).registers.LYC = p.registers.LYC := by
  unfold reqStatInterrupt; split <;> rfl

@[simp] theorem reqStat_STAT (p : PPU) (b : ℕ) :
    (reqStatInterrupt p b).registers.STAT = p.registers.STAT := by
  unfold reqStatInterrupt; split <;> rfl

@[simp] theorem reqStat_WC (p : PPU) (b : ℕ) :
    (reqStatInterrupt p b).registers.WC = p.registers.WC := by
  unfold reqStatInterrupt; split <;> rfl

@[simp] theorem reqStat_cycles (p : PPU) (b : ℕ) :
    (reqStatInterrupt p b).cycles = p.cycles := by
  unfold reqStatInterrupt; split <;> rfl

@[simp] theorem reqStat_stepCount (p : PPU) (b : ℕ) :
    (reqStatInterrupt p b).stepCount = p.stepCount := by
  unfold reqStatInterrupt; split <;> rfl

@[simp] theorem reqStat_vblank (p : PPU) (b : ℕ) :
    (reqStatInterrupt p b).registers.interrupts.vblank = p.registers.interrupts.vblank := by
  unfold reqStatInterrupt; split <;> rfl

@[simp] theorem setMode_LY (p : PPU) (m : ℕ) :
    (setMode p m).registers.LY = p.registers.LY := by
  unfold setMode; split <;> simp

@[simp] theorem setMode_LYC (p : PPU) (m : ℕ) :
    (setMode p m).registers.LYC = p.registers.LYC := by
  unfold setMode; split <;> simp

@[simp] theorem setMode_WC (p : PPU) (m : ℕ) :
    (setMode p m).registers.WC = p.registers.WC := by
  unfold setMode; split <;> simp

@[simp] theorem setMode_cycles (p : PPU) (m : ℕ) :
    (setMode p m).cycles = p.cycles := by
  unfold setMode; split <;> simp

@[simp] theorem setMode_stepCount (p : PPU) (m : ℕ) :
    (setMode p m).stepCount = p.stepCount := by
  unfold setMode; split <;> simp

@[simp] theorem setMode_vblank (p : PPU) (m : ℕ) :
    (setMode p m).registers.interrupts.vblank = p.registers.interrupts.vblank := by
  unfold setMode; split <;> simp

@[simp] theorem setMode_STAT (p : PPU) (m : ℕ) :
    (setMode p m).registers.STAT = (p.registers.STAT &&& 0xFC) ||| (m &&& 0b11) := by
  unfold setMode; split <;> simp

@[simp] theorem drawLine_LY (p : PPU) : (drawLine p).registers.LY = p.registers.LY := by
  obtain ⟨w, wc, h⟩ := drawLine_shape p; rw [h]

@[simp] theorem drawLine_LYC (p : PPU) : (drawLine p).registers.LYC = p.registers.LYC := by
  obtain ⟨w, wc, h⟩ := drawLine_shape p; rw [h]

@[simp] theorem drawLine_STAT (p : PPU) : (drawLine p).registers.STAT = p.registers.STAT := by
  obtain ⟨w, wc, h⟩ := drawLine_shape p; rw [h]

@[simp] theorem drawLine_cycles (p : PPU) : (drawLine p).cycles = p.cycles := by
  obtain ⟨w, wc, h⟩ := drawLine_shape p; rw [h]

@[simp] theorem drawLine_stepCount (p : PPU) : (drawLine p).stepCount = p.stepCount := by
  obtain ⟨w, wc, h⟩ := drawLine_shape p; rw [h]

@[simp] theorem drawLine_vblank (p : PPU) :
    (drawLine p).registers.interrupts.vblank = p.registers.interrupts.vblank := by
  obtain ⟨w, wc, h⟩ := drawLine_shape p; rw [h]

@[simp] theorem drawLine_block (p : PPU) : (drawLine p).blockStatIrqs = p.blockStatIrqs := by
  obtain ⟨w, wc, h⟩ := drawLine_shape p; rw [h]

@[simp] theorem drawLine_irqCount (p : PPU) : (drawLine p).irqCount = p.irqCount := by
  obtain ⟨w, wc, h⟩ := drawLine_shape p; rw [h]

/-! ### Interrupt-request accounting -/

/-- One scheduler-internal operation taking `a` to `b` either leaves the
request accounting alone or performs one successful request: it can only
succeed from an unblocked state, and success blocks. -/
def GoodStep (a b : PPU) : Prop :=
  (b.irqCount = a.irqCount ∧ b.blockStatIrqs = a.blockStatIrqs) ∨
  (a.blockStatIrqs = false ∧ b.irqCount = a.irqCount + 1 ∧ b.blockStatIrqs = true)

theorem goodStep_refl (a : PPU) : GoodStep a a := Or.inl ⟨rfl, rfl⟩

theorem goodStep_trans {a b c : PPU} (h1 : GoodStep a b) (h2 : GoodStep b c) :
    GoodStep a c := by
  rcases h1 with ⟨e1, f1⟩ | ⟨g1, e1, f1⟩ <;> rcases h2 with ⟨e2, f2⟩ | ⟨g2, e2, f2⟩
  · exact Or.inl ⟨e2.trans e1, f2.trans f1⟩
  · exact Or.inr ⟨f1.symm.trans g2, by omega, f2⟩
  · exact Or.inr ⟨g1, by omega, f2.trans f1⟩
  · rw [f1] at g2; exact absurd g2 (by simp)

theorem reqStat_good (p : PPU) (b : ℕ) : GoodStep p (reqStatInterrupt p b) := by
  unfold reqStatInterrupt
  by_cases h : p.blockStatIrqs = false ∧ (p.registers.STAT &&& (1 <<< b)) ≠ 0 ∧ 3 ≤ b ∧ b ≤ 6
  · rw [if_pos h]
    exact Or.inr ⟨h.1, rfl, rfl⟩
  · rw [if_neg h]
    exact goodStep_refl p

theorem setMode_good (p : PPU) (m : ℕ) : GoodStep p (setMode p m) := by
  unfold setMode
  split
  · exact reqStat_good _ _
  · exact goodStep_refl _

theorem drawLine_good (p : PPU) : GoodStep p (drawLine p) :=
  Or.inl ⟨drawLine_irqCount p, drawLine_block p⟩

theorem reqStat_of_blocked {p : PPU} (hb : p.blockStatIrqs = true) (b : ℕ) :
    reqStatInterrupt p b = p := by
  unfold reqStatInterrupt
  rw [if_neg]
  simp [hb]

theorem setMode_blocked {p : PPU} (hb : p.blockStatIrqs = true) (m : ℕ) :
    (setMode p m).irqCount = p.irqCount ∧ (setMode p m).blockStatIrqs = true := by
  unfold setMode
  split
  · rw [reqStat_of_blocked (p := _) (by exact hb)]
    exact ⟨rfl, hb⟩
  · exact ⟨rfl, hb⟩

/-! ### Projections through the three blocks of `step` -/

theorem lineStart_LY (p : PPU) (s : ℕ) : (lineStart p s).registers.LY = s := by
  unfold lineStart; dsimp only

theorem lineStart_LYC (p : PPU) (s : ℕ) : (lineStart p s).registers.LYC = p.registers.LYC := by
  unfold lineStart; dsimp only; split_ifs <;> rfl

theorem lineStart_STAT (p : PPU) (s : ℕ) : (lineStart p s).registers.STAT = p.registers.STAT := by
  unfold lineStart; dsimp only; split_ifs <;> rfl

theorem lineStart_cycles (p : PPU) (s : ℕ) : (lineStart p s).cycles = p.cycles := by
  unfold lineStart; dsimp only; split_ifs <;> rfl

theorem lineStart_stepCount (p : PPU) (s : ℕ) : (lineStart p s).stepCount = p.stepCount := by
  unfold lineStart; dsimp only; split_ifs <;> rfl

theorem lineStart_irqCount (p : PPU) (s : ℕ) : (lineStart p s).irqCount = p.irqCount := by
  unfold lineStart; dsimp only; split_ifs <;> rfl

theorem lineStart_vblank (p : PPU) (s : ℕ) :
    (lineStart p s).registers.interrupts.vblank = p.registers.interrupts.vblank := by
  unfold lineStart; dsimp only; split_ifs <;> rfl

theorem lineStart_of_eq (p : PPU) {s : ℕ} (h : s = p.registers.LY) : lineStart p s = p := by
  subst h
  unfold lineStart
  dsimp only
  rw [if_neg (show ¬(p.registers.LY ≠ p.registers.LY) by simp)]

theorem lycCheck_LY (p : PPU) (c : ℕ) : (lycCheck p c).registers.LY = p.registers.LY := by
  unfold lycCheck; dsimp only; split_ifs <;> simp

theorem lycCheck_LYC (p : PPU) (c : ℕ) : (lycCheck p c).registers.LYC = p.registers.LYC := by
  unfold lycCheck; dsimp only; split_ifs <;> simp

theorem lycCheck_cycles (p : PPU) (c : ℕ) : (lycCheck p c).cycles = p.cycles := by
  unfold lycCheck; dsimp only; split_ifs <;> simp

theorem lycCheck_stepCount (p : PPU) (c : ℕ) : (lycCheck p c).stepCount = p.stepCount := by
  unfold lycCheck; dsimp only; split_ifs <;> simp

theorem lycCheck_vblank (p : PPU) (c : ℕ) :
    (lycCheck p c).registers.interrupts.vblank = p.registers.interrupts.vblank := by
  unfold lycCheck; dsimp only; split_ifs <;> simp

theorem goodStep_statUpdate {a b : PPU} (h : GoodStep a b) (x : ℕ) :
    GoodStep a { b with registers.STAT := x } := by
  rcases h with ⟨e, f⟩ | ⟨g, e, f⟩
  · exact Or.inl ⟨e, f⟩
  · exact Or.inr ⟨g, e, f⟩

theorem lycCheck_good (p : PPU) (c : ℕ) : GoodStep p (lycCheck p c) := by
  unfold lycCheck
  dsimp only
  split_ifs <;>
    first
      | exact goodStep_statUpdate (reqStat_good p 6) _
      | exact goodStep_statUpdate (goodStep_refl p) _

theorem lycCheck_blocked {p : PPU} (hb : p.blockStatIrqs = true) (c : ℕ) :
    (lycCheck p c).irqCount = p.irqCount ∧ (lycCheck p c).blockStatIrqs = true := by
  unfold lycCheck
  dsimp only
  split_ifs <;> simp [reqStat_of_blocked hb, hb]

theorem lycCheck_STAT_bit2 (p : PPU) (c : ℕ) :
    ((lycCheck p c).registers.STAT).testBit 2
      = decide (p.registers.LY = p.registers.LYC) := by
  have h251 : Nat.testBit 251 2 = false := by decide
  have h4 : (Nat.testBit 4 2 = true) := by decide
  unfold lycCheck
  dsimp only
  by_cases h : p.registers.LY = p.registers.LYC
  · split_ifs <;>
      simp [h, Nat.testBit_or, Nat.testBit_and, h251, h4]
  · rw [if_neg (by tauto)]
    simp [h, Nat.testBit_or, Nat.testBit_and, h251]

theorem modeSwitch_LY (p : PPU) (c : ℕ) : (modeSwitch p c).registers.LY = p.registers.LY := by
  unfold modeSwitch; split_ifs <;> simp

theorem modeSwitch_LYC (p : PPU) (c : ℕ) : (modeSwitch p c).registers.LYC = p.registers.LYC := by
  unfold modeSwitch; split_ifs <;> simp

theorem modeSwitch_cycles (p : PPU) (c : ℕ) : (modeSwitch p c).cycles = p.cycles := by
  unfold modeSwitch; split_ifs <;> simp

theorem modeSwitch_stepCount (p : PPU) (c : ℕ) : (modeSwitch p c).stepCount = p.stepCount := by
  unfold modeSwitch; split_ifs <;> simp

theorem modeSwitch_STAT_bit2 (p : PPU) (c : ℕ) :
    ((modeSwitch p c).registers.STAT).testBit 2 = (p.registers.STAT).testBit 2 := by
  have h252 : Nat.testBit 252 2 = true := by decide
  have hm0 : Nat.testBit (0 &&& 3) 2 = false := by decide
  have hm1 : Nat.testBit (1 &&& 3) 2 = false := by decide
  have hm2 : Nat.testBit (2 &&& 3) 2 = false := by decide
  have hm3 : Nat.testBit (3 &&& 3) 2 = false := by decide
  have hb1 : Nat.testBit 1 2 = false := by decide
  have hb3 : Nat.testBit 3 2 = false := by decide
  unfold modeSwitch
  split_ifs <;>
    simp [Nat.testBit_or, Nat.testBit_and, h252, hm0, hm1, hm2, hm3, hb1, hb3]

theorem modeSwitch_good (p : PPU) (c : ℕ) : GoodStep p (modeSwitch p c) := by
  unfold modeSwitch
  split_ifs
  · exact setMode_good p 2
  · exact goodStep_trans (setMode_good p 3) (drawLine_good _)
  · exact setMode_good p 0
  · exact goodStep_refl p
  · rcases setMode_good { p with registers.interrupts.vblank := true } 1 with ⟨e, f⟩ | ⟨g, e, f⟩
    · exact Or.inl ⟨e, f⟩
    · exact Or.inr ⟨g, e, f⟩
  · exact goodStep_refl p

theorem modeSwitch_blocked {p : PPU} (hb : p.blockStatIrqs = true) (c : ℕ) :
    (modeSwitch p c).irqCount = p.irqCount ∧ (modeSwitch p c).blockStatIrqs = true := by
  unfold modeSwitch
  split_ifs
  · exact setMode_blocked hb 2
  · obtain ⟨e, f⟩ := setMode_blocked hb 3
    rw [drawLine_irqCount, drawLine_block]
    exact ⟨e, f⟩
  · exact setMode_blocked hb 0
  · exact ⟨rfl, hb⟩
  · exact setMode_blocked (p := { p with registers.interrupts.vblank := true }) hb 1
  · exact ⟨rfl, hb⟩

theorem modeSwitch_vblank (p : PPU) (c : ℕ) :
    ((modeSwitch p c).registers.interrupts.vblank = true) ↔
      (p.registers.interrupts.vblank = true ∨ (p.registers.LY = 144 ∧ c = 0)) := by
  unfold modeSwitch
  split_ifs with h1 h2 h3 h4 h5
  · simp
    omega
  · simp
    omega
  · simp
    omega
  · simp
    omega
  · simp [h5]
  · simp
    tauto

/-! ### Facts about `step`, `tick` and the iterated pump -/

theorem step_LY (p : PPU) : (step p).registers.LY = scanlineOf p.cycles := by
  unfold step
  dsimp only
  rw [modeSwitch_LY, lycCheck_LY]
  exact lineStart_LY _ _

theorem step_LYC (p : PPU) : (step p).registers.LYC = p.registers.LYC := by
  unfold step
  dsimp only
  rw [modeSwitch_LYC, lycCheck_LYC]
  exact lineStart_LYC _ _

theorem step_cycles (p : PPU) : (step p).cycles = p.cycles := by
  unfold step
  dsimp only
  rw [modeSwitch_cycles, lycCheck_cycles]
  exact lineStart_cycles _ _

theorem step_stepCount (p : PPU) : (step p).stepCount = p.stepCount + 1 := by
  unfold step
  dsimp only
  rw [modeSwitch_stepCount, lycCheck_stepCount]
  exact lineStart_stepCount _ _

theorem step_irq_le (p : PPU) :
    (step p).irqCount ≤ p.irqCount + 1 ∧
      ((step p).irqCount ≠ p.irqCount → (step p).blockStatIrqs = true) := by
  unfold step
  dsimp only
  have hq : (lineStart { p with stepCount := p.stepCount + 1 }
      (scanlineOf p.cycles)).irqCount = p.irqCount := lineStart_irqCount _ _
  have g := goodStep_trans (lycCheck_good
      (lineStart { p with stepCount := p.stepCount + 1 } (scanlineOf p.cycles)) (p.cycles % 456))
    (modeSwitch_good _ (p.cycles % 456))
  rcases g with ⟨e, _⟩ | ⟨_, e, f⟩
  · rw [e, hq]
    exact ⟨by omega, fun h => absurd rfl h⟩
  · rw [e, hq]
    exact ⟨by omega, fun _ => f⟩

theorem step_blocked (p : PPU) (hb : p.blockStatIrqs = true)
    (hs : scanlineOf p.cycles = p.registers.LY) :
    (step p).irqCount = p.irqCount ∧ (step p).blockStatIrqs = true := by
  unfold step
  dsimp only
  rw [lineStart_of_eq { p with stepCount := p.stepCount + 1 } (by exact hs)]
  obtain ⟨e2, f2⟩ := lycCheck_blocked (p := { p with stepCount := p.stepCount + 1 })
    (by exact hb) (p.cycles % 456)
  obtain ⟨e3, f3⟩ := modeSwitch_blocked f2 (p.cycles % 456)
  exact ⟨by rw [e3, e2], f3⟩

theorem step_vblank (p : PPU) :
    ((step p).registers.interrupts.vblank = true) ↔
      (p.registers.interrupts.vblank = true ∨
        (scanlineOf p.cycles = 144 ∧ p.cycles % 456 = 0)) := by
  unfold step
  dsimp only
  rw [modeSwitch_vblank, lycCheck_vblank, lineStart_vblank, lycCheck_LY, lineStart_LY]

theorem step_STAT_bit2 (p : PPU) :
    ((step p).registers.STAT).testBit 2
      = decide ((step p).registers.LY = (step p).registers.LYC) := by
  unfold step
  dsimp only
  rw [modeSwitch_STAT_bit2, lycCheck_STAT_bit2, modeSwitch_LY, modeSwitch_LYC,
    lycCheck_LY, lycCheck_LYC, lineStart_LY, lineStart_LYC]

theorem tick_LY (p : PPU) : (tick p).registers.LY = scanlineOf ((tick p).cycles) := by
  unfold tick
  dsimp only
  rw [step_LY, step_cycles]

theorem tick_stepCount (p : PPU) : (tick p).stepCount = p.stepCount + 1 := by
  unfold tick
  dsimp only
  rw [step_stepCount]
  split_ifs <;> rfl

theorem tick_cycles_le (p : PPU) (h : p.cycles + 4 ≤ 70224) :
    (tick p).cycles = p.cycles + 4 := by
  unfold tick
  dsimp only
  rw [step_cycles]
  rw [if_neg (by omega)]

theorem tick_cycles_mod (p : PPU) :
    (tick p).cycles % 70224 = (p.cycles + 4) % 70224 := by
  unfold tick
  dsimp only
  rw [step_cycles]
  split_ifs with h
  · dsimp only
    omega
  · rfl

theorem tick_irq_le (p : PPU) :
    (tick p).irqCount ≤ p.irqCount + 1 ∧
      ((tick p).irqCount ≠ p.irqCount → (tick p).blockStatIrqs = true) := by
  unfold tick
  dsimp only
  split_ifs <;> exact step_irq_le _

theorem tick_blocked (p : PPU) (hb : p.blockStatIrqs = true)
    (hs : scanlineOf ((tick p).cycles) = p.registers.LY) :
    (tick p).irqCount = p.irqCount ∧ (tick p).blockStatIrqs = true := by
  have hcyc : (tick p).cycles =
      (if 70224 < p.cycles + 4 then p.cycles + 4 - 70224 else p.cycles + 4) := by
    unfold tick
    dsimp only
    split_ifs with h
    · rw [step_cycles]
    · rw [step_cycles]
  rw [hcyc] at hs
  by_cases h : 70224 < p.cycles + 4
  · rw [if_pos h] at hs
    unfold tick
    dsimp only
    rw [if_pos h]
    exact step_blocked _ hb hs
  · rw [if_neg h] at hs
    unfold tick
    dsimp only
    rw [if_neg h]
    exact step_blocked _ hb hs

theorem iter_stepCount (p : PPU) :
    ∀ n, (Nat.iterate tick n p).stepCount = p.stepCount + n := by
  intro n
  induction n with
  | zero => rfl
  | succ n ih =>
    rw [Function.iterate_succ_apply', tick_stepCount, ih]
    omega

theorem iter_cycles_mod (p : PPU) :
    ∀ n, (Nat.iterate tick n p).cycles % 70224 = (p.cycles + 4 * n) % 70224 := by
  intro n
  induction n with
  | zero => rfl
  | succ n ih =>
    rw [Function.iterate_succ_apply']
    have h1 := tick_cycles_mod (Nat.iterate tick n p)
    omega

theorem iter_cycles_nowrap (p : PPU) :
    ∀ n, p.cycles + 4 * n ≤ 70224 → (Nat.iterate tick n p).cycles = p.cycles + 4 * n := by
  intro n
  induction n with
  | zero => exact fun _ => rfl
  | succ n ih =>
    intro h
    rw [Function.iterate_succ_apply']
    have h2 := ih (by omega)
    rw [tick_cycles_le _ (by omega), h2]
    omega

/-! ### Claims about the scheduler and the frame pump -/

/-- C1: the scheduler derives scanline `counter / 456` and offset `counter % 456`,
and the claim says the derived scanline (hence `LY`) always lies in `[0, 153]`
under the pump's wraparound at 70224. The code wraps only when the counter
exceeds 70224, so the counter value 70224 itself is reached (here: from reset
after `draw(70224)`), and there the derived scanline is `70224 / 456 = 154`,
which the scheduler stores into `LY`. This evaluates the code at that input. -/
theorem c1_ly_reaches_154 :
    (draw initPPU 70224).cycles = 70224 ∧
    (draw initPPU 70224).registers.LY = 154 ∧
    ¬ (draw initPPU 70224).registers.LY ≤ 153 := by
  have h4 : (70224 : ℕ) / 4 = 17556 := by norm_num
  have hc : (Nat.iterate tick 17556 initPPU).cycles = 70224 := by
    rw [iter_cycles_nowrap initPPU 17556 (by decide)]
    decide
  have e : Nat.iterate tick 17556 initPPU = tick (Nat.iterate tick 17555 initPPU) := by
    rw [show (17556 : ℕ) = 17555 + 1 by norm_num]
    exact Function.iterate_succ_apply' tick 17555 initPPU
  have hly : (Nat.iterate tick 17556 initPPU).registers.LY = 154 := by
    rw [e, tick_LY, ← e, hc]
    decide
  refine ⟨?_, ?_, ?_⟩
  · unfold draw; rw [h4]; exact hc
  · unfold draw; rw [h4]; exact hly
  · unfold draw; rw [h4, hly]; omega

/-- C5: starting from a state whose vblank latch is clear, one scheduler step
sets the latch exactly when the derived scanline is 144 and the intra-line
offset is 0; moreover within one frame (counter at most 70224) that
combination happens at exactly one counter value, 65664 = 144 * 456. -/
theorem c5_vblank_exact (s : PPU) (h : s.registers.interrupts.vblank = false) :
    (((step s).registers.interrupts.vblank = true) ↔
      (scanlineOf s.cycles = 144 ∧ s.cycles % 456 = 0)) ∧
    (∀ c, c ≤ 70224 → ((scanlineOf c = 144 ∧ c % 456 = 0) ↔ c = 65664)) := by
  constructor
  · rw [step_vblank, h]
    simp
  · intro c hc
    constructor
    · rintro ⟨h1, h2⟩
      obtain ⟨k, rfl⟩ : ∃ k, c = 456 * k := ⟨c / 456, by omega⟩
      unfold scanlineOf at h1
      rw [Nat.mul_div_cancel_left _ (by norm_num)] at h1
      have hk : k ≤ 154 := by omega
      rw [Nat.mod_eq_of_lt (by omega)] at h1
      omega
    · rintro rfl
      exact ⟨by decide, by decide⟩

/-- C5 witness: at counter 65664 (scanline 144, offset 0) the step sets the
vblank latch. -/
theorem c5_vblank_exact_witness :
    (step { initPPU with cycles := 65664 }).registers.interrupts.vblank = true :=
  ((c5_vblank_exact { initPPU with cycles := 65664 } rfl).1).mpr (by decide)

/-- C6: after every scheduler step, bit 2 of `STAT` (the coincidence flag)
equals the truth value of `LY = LYC` in the resulting state, for all register
values. -/
theorem c6_coincidence_bit (s : PPU) :
    ((step s).registers.STAT).testBit 2
      = decide ((step s).registers.LY = (step s).registers.LYC) :=
  step_STAT_bit2 s

/-- C10: the pump `draw` invokes the scheduler exactly `c / 4` times (ghost
`stepCount`), advances the counter by 4 per invocation modulo the frame wrap,
does nothing for `c < 4`, and discards the remainder `c % 4` instead of
accumulating it into later calls. -/
theorem c10_frame_pump (p : PPU) (c : ℕ) :
    (draw p c).stepCount = p.stepCount + c / 4 ∧
    (draw p c).cycles % 70224 = (p.cycles + 4 * (c / 4)) % 70224 ∧
    (c < 4 → draw p c = p) ∧
    (∀ c2, draw (draw p c) c2 = draw p (4 * (c / 4) + 4 * (c2 / 4))) := by
  refine ⟨iter_stepCount p (c / 4), iter_cycles_mod p (c / 4), fun h => ?_, fun c2 => ?_⟩
  · have h0 : c / 4 = 0 := by omega
    unfold draw
    rw [h0]
    rfl
  · unfold draw
    rw [← Function.iterate_add_apply]
    congr 1
    omega

/-- C10 witness: a call with fewer than 4 cycles does nothing, two calls of 3
discard both remainders, and `draw(8)` runs the scheduler twice. -/
theorem c10_frame_pump_witness :
    draw initPPU 3 = initPPU ∧ draw (draw initPPU 3) 3 = initPPU ∧
    (draw initPPU 8).stepCount = 2 := by
  refine ⟨(c10_frame_pump initPPU 3).2.2.1 (by norm_num), ?_, ?_⟩
  · have h := (c10_frame_pump initPPU 3).2.2.2 3
    rw [h]
    exact (c10_frame_pump initPPU 0).2.2.1 (by norm_num)
  · have h := (c10_frame_pump initPPU 8).1
    simpa [initPPU] using h

/-- Strengthened induction for C4: while the derived scanline stays what it
became after the first of `n` ticks, the ghost count of successful stat
requests rises by at most one, a rise forces the suppression flag on, and
`LY` tracks the derived scanline. -/
theorem c4_aux (s : PPU) :
    ∀ n, 1 ≤ n →
      (∀ k, 1 ≤ k → k ≤ n →
        scanlineOf ((Nat.iterate tick k s).cycles)
          = scanlineOf ((Nat.iterate tick 1 s).cycles)) →
      (Nat.iterate tick n s).irqCount ≤ s.irqCount + 1 ∧
      ((Nat.iterate tick n s).irqCount ≠ s.irqCount →
        (Nat.iterate tick n s).blockStatIrqs = true) ∧
      (Nat.iterate tick n s).registers.LY
        = scanlineOf ((Nat.iterate tick n s).cycles) := by
  intro n
  induction n with
  | zero => exact fun h => absurd h (by omega)
  | succ n ih =>
    intro _ hsc
    by_cases hn : 1 ≤ n
    · obtain ⟨ih1, ih2, ih3⟩ := ih hn (fun k h1 h2 => hsc k h1 (by omega))
      have hstep : Nat.iterate tick (n + 1) s = tick (Nat.iterate tick n s) :=
        Function.iterate_succ_apply' tick n s
      have hsn := hsc n hn (by omega)
      have hsn1 := hsc (n + 1) (by omega) (le_refl _)
      have hcond : scanlineOf ((tick (Nat.iterate tick n s)).cycles)
          = (Nat.iterate tick n s).registers.LY := by
        rw [← hstep, hsn1, ih3, hsn]
      by_cases hb : (Nat.iterate tick n s).blockStatIrqs = true
      · obtain ⟨e, f⟩ := tick_blocked _ hb hcond
        rw [hstep]
        refine ⟨?_, fun _ => f, tick_LY _⟩
        rw [e]
        exact ih1
      · have hyirq : (Nat.iterate tick n s).irqCount = s.irqCount := by
          by_contra hne
          exact hb (ih2 hne)
        obtain ⟨le1, imp1⟩ := tick_irq_le (Nat.iterate tick n s)
        rw [hstep]
        refine ⟨by omega, fun hne => imp1 (by omega), tick_LY _⟩
    · have hn0 : n = 0 := by omega
      subst hn0
      rw [Function.iterate_one]
      exact ⟨(tick_irq_le s).1, (tick_irq_le s).2, tick_LY s⟩

/-- C4: across any run of pump ticks during which the derived scanline does
not change from what it became at the first tick, the stat-interrupt latch is
set at most once: the ghost success counter rises by at most one, no matter
how many of the four enable conditions hold (a success suppresses all further
requests until the scanline changes). -/
theorem c4_stat_once (s : PPU) (n : ℕ)
    (h : ∀ k, 1 ≤ k → k ≤ n →
      scanlineOf ((Nat.iterate tick k s).cycles)
        = scanlineOf ((Nat.iterate tick 1 s).cycles)) :
    (Nat.iterate tick n s).irqCount ≤ s.irqCount + 1 := by
  by_cases hn : 1 ≤ n
  · exact (c4_aux s n hn h).1
  · have hn0 : n = 0 := by omega
    subst hn0
    exact Nat.le_succ _

/-- C4 witness: two ticks from reset stay on scanline 0, and the success count
rises by at most one. -/
theorem c4_stat_once_witness :
    (Nat.iterate tick 2 initPPU).irqCount ≤ initPPU.irqCount + 1 :=
  c4_stat_once initPPU 2 (by
    intro k h1 h2
    interval_cases k
    · rfl
    · decide)

/-! ### Claims about the register bus -/

/-- C2 counterexample: the claim says that for `STAT` exactly bits 3-6 of the
written value persist as written. But the write is an OR (`STAT |= val & !7`):
writing `0x08` and then `0x00` leaves the read-back at `0x88 = 136`, whose
bit 3 is set although the last written value had bit 3 clear. -/
theorem c2_stat_or_counterexample :
    ((writeByte initPPU 0xFF41 8).bind fun p =>
      (writeByte p 0xFF41 0).bind fun q => readByte q 0xFF41) = some 136 ∧
    Nat.testBit 136 3 ≠ Nat.testBit 0 3 := by
  constructor
  · decide
  · decide

/-- C2 amended: writing then reading back any writable register yields the
written value, except `STAT`, where the write ORs bits 3-7 of the written
value into the register (written 1s set bits, written 0s leave them alone)
and bits 0-2 of the written value are ignored, and `LY` (`0xFF44`), which has
no bus write path at all (the write faults). -/
theorem c2_roundtrip_amended (s : PPU) (v : ℕ) (hv : v < 256) :
    ((writeByte s 0xFF40 v).bind fun q => readByte q 0xFF40) = some v ∧
    ((writeByte s 0xFF42 v).bind fun q => readByte q 0xFF42) = some v ∧
    ((writeByte s 0xFF43 v).bind fun q => readByte q 0xFF43) = some v ∧
    ((writeByte s 0xFF45 v).bind fun q => readByte q 0xFF45) = some v ∧
    ((writeByte s 0xFF47 v).bind fun q => readByte q 0xFF47) = some v ∧
    ((writeByte s 0xFF48 v).bind fun q => readByte q 0xFF48) = some v ∧
    ((writeByte s 0xFF49 v).bind fun q => readByte q 0xFF49) = some v ∧
    ((writeByte s 0xFF4A v).bind fun q => readByte q 0xFF4A) = some v ∧
    ((writeByte s 0xFF4B v).bind fun q => readByte q 0xFF4B) = some v ∧
    ((writeByte s 0xFF41 v).bind fun q => readByte q 0xFF41)
      = some (s.registers.STAT ||| (v &&& 0xF8)) ∧
    (s.registers.STAT ||| (v &&& 0xF8)) &&& 7 = s.registers.STAT &&& 7 ∧
    writeByte s 0xFF44 v = none := by
  have hmod : v % 256 = v := Nat.mod_eq_of_lt hv
  refine ⟨?_, ?_, ?_, ?_, ?_, ?_, ?_, ?_, ?_, ?_, ?_, ?_⟩
  · unfold writeByte readByte; norm_num [hmod]
  · unfold writeByte readByte; norm_num [hmod]
  · unfold writeByte readByte; norm_num [hmod]
  · unfold writeByte readByte; norm_num [hmod]
  · unfold writeByte readByte; norm_num [hmod]
  · unfold writeByte readByte; norm_num [hmod]
  · unfold writeByte readByte; norm_num [hmod]
  · unfold writeByte readByte; norm_num [hmod]
  · unfold writeByte readByte; norm_num [hmod]
  · unfold writeByte readByte; norm_num [hmod]
  · simp [Nat.and_distrib_right, Nat.land_assoc, show (248 : ℕ) &&& 7 = 0 from by decide]
  · unfold writeByte; norm_num

/-- C2 witness: a plain register round-trips the value 171, and the `STAT`
round-trip yields the OR formula. -/
theorem c2_roundtrip_amended_witness :
    ((writeByte initPPU 0xFF42 171).bind fun q => readByte q 0xFF42) = some 171 ∧
    ((writeByte initPPU 0xFF41 171).bind fun q => readByte q 0xFF41)
      = some (initPPU.registers.STAT ||| (171 &&& 0xF8)) := by
  have h := c2_roundtrip_amended initPPU 171 (by norm_num)
  exact ⟨h.2.1, h.2.2.2.2.2.2.2.2.2.1⟩

/-- The set of bus addresses the PPU maps: the video-memory window, the OAM
window, and the named register addresses of `read_byte` (`0xFF44` = `LY` is
mapped for reads only). -/
def mappedAddr (addr : ℕ) : Prop :=
  (0x8000 ≤ addr ∧ addr ≤ 0x9FFF) ∨ (0xFE00 ≤ addr ∧ addr ≤ 0xFE9F) ∨
  addr = 0xFF40 ∨ addr = 0xFF41 ∨ addr = 0xFF42 ∨ addr = 0xFF43 ∨ addr = 0xFF44 ∨
  addr = 0xFF45 ∨ addr = 0xFF47 ∨ addr = 0xFF48 ∨ addr = 0xFF49 ∨ addr = 0xFF4A ∨
  addr = 0xFF4B

/-- C9: a bus access to any address outside the mapped set faults (`none`,
the model of the source's `panic!`) on both read and write, rather than being
a silent no-op; and in particular a write to the `LY` address `0xFF44` faults,
since `write_byte` has no arm for it. -/
theorem c9_unmapped_fault (s : PPU) (addr v : ℕ) (h : ¬ mappedAddr addr) :
    readByte s addr = none ∧ writeByte s addr v = none ∧
    writeByte s 0xFF44 v = none := by
  unfold mappedAddr at h
  have g1 : ¬(0x8000 ≤ addr ∧ addr ≤ 0x9FFF) := by omega
  have g2 : ¬(0xFE00 ≤ addr ∧ addr ≤ 0xFE9F) := by omega
  have g3 : ¬(addr = 0xFF40) := by omega
  have g4 : ¬(addr = 0xFF41) := by omega
  have g5 : ¬(addr = 0xFF42) := by omega
  have g6 : ¬(addr = 0xFF43) := by omega
  have g7 : ¬(addr = 0xFF44) := by omega
  have g8 : ¬(addr = 0xFF45) := by omega
  have g9 : ¬(addr = 0xFF47) := by omega
  have g10 : ¬(addr = 0xFF48) := by omega
  have g11 : ¬(addr = 0xFF49) := by omega
  have g12 : ¬(addr = 0xFF4A) := by omega
  have g13 : ¬(addr = 0xFF4B) := by omega
  refine ⟨?_, ?_, ?_⟩
  · unfold readByte
    rw [if_neg g1, if_neg g2, if_neg g3, if_neg g4, if_neg g5, if_neg g6, if_neg g7,
      if_neg g8, if_neg g9, if_neg g10, if_neg g11, if_neg g12, if_neg g13]
  · unfold writeByte
    dsimp only
    rw [if_neg g1, if_neg g2, if_neg g3, if_neg g4, if_neg g5, if_neg g6,
      if_neg g8, if_neg g9, if_neg g10, if_neg g11, if_neg g12, if_neg g13]
  · unfold writeByte
    norm_num

/-- C9 witness: the DMA address `0xFF46` sits between two mapped registers and
faults both ways, and the `LY` write faults. -/
theorem c9_unmapped_fault_witness :
    readByte initPPU 0xFF46 = none ∧ writeByte initPPU 0xFF46 0 = none ∧
    writeByte initPPU 0xFF44 0 = none :=
  c9_unmapped_fault initPPU 0xFF46 0 (by unfold mappedAddr; decide)

/-! ### List-range splitting helpers -/

theorem mem_range'_one {m s n : ℕ} : m ∈ List.range' s n ↔ s ≤ m ∧ m < s + n := by
  rw [List.mem_range']
  constructor
  · rintro ⟨i, hi, rfl⟩
    omega
  · rintro ⟨h1, h2⟩
    exact ⟨m - s, by omega, by omega⟩

theorem range_split {n k : ℕ} (h : k < n) :
    List.range n = List.range k ++ k :: List.range' (k + 1) (n - k - 1) := by
  rw [List.range_eq_range', List.range_eq_range']
  have e2 := List.range'_append_1 0 k (n - k)
  rw [Nat.zero_add] at e2
  have e3 : List.range' 0 n = List.range' 0 k ++ List.range' k (n - k) := by
    rw [e2]
    congr 1
    omega
  rw [e3]
  congr 1
  have hm : n - k = (n - k - 1) + 1 := by omega
  generalize hq : n - k - 1 = m at hm ⊢
  rw [hm]
  exact List.range'_succ k m 1

/-! ### Pointwise effect of the window pass on the viewport -/

theorem writePixel_viewport (p : PPU) (r c v a b : ℕ) :
    (writePixel p r c v).viewport a b = if a = r ∧ b = c then v else p.viewport a b := rfl

theorem decodePalette_congr {p q : PPU} (h : q.registers = p.registers) (x : ℕ) :
    decodePalette q x = decodePalette p x := by
  unfold decodePalette
  rw [h]

theorem tilePixel_congr {p q : PPU} (hr : q.registers = p.registers)
    (hm : q.memory = p.memory) (t r j : ℕ) : tilePixel q t r j = tilePixel p t r j := by
  unfold tilePixel vram
  rw [hr, hm]

theorem vram_congr {p q : PPU} (hm : q.memory = p.memory) (a : ℕ) : vram q a = vram p a := by
  unfold vram
  rw [hm]

theorem winInner_untouched (i : ℕ) (row : ℕ → ℕ) (wx : ℕ) :
    ∀ (l : List ℕ) (st : PPU) (vis : Bool) (a b : ℕ), st.registers.WX = wx →
      (∀ j ∈ l, 7 ≤ 8 * i + j + wx → 8 * i + j + wx < 160 → 8 * i + j + wx - 7 ≠ b) →
      ((winInner i row l st vis).1).viewport a b = st.viewport a b := by
  intro l
  induction l with
  | nil => intro st vis a b _ _; rfl
  | cons j js ih =>
    intro st vis a b hwx hnone
    rw [winInner]
    by_cases h : 7 ≤ 8 * i + j + st.registers.WX ∧ 8 * i + j + st.registers.WX < 160
    · rw [if_pos h]
      rw [ih _ _ _ _ (by rw [show (writePixel st st.registers.LY
            (8 * i + j + st.registers.WX - 7) (decodePalette st (row j))).registers
            = st.registers from rfl]; exact hwx)
          (fun u hu => hnone u (List.mem_cons_of_mem _ hu))]
      rw [writePixel_viewport, if_neg]
      rintro ⟨-, hb⟩
      exact hnone j (List.mem_cons_self _ _) (hwx ▸ h.1) (hwx ▸ h.2) (by rw [← hwx]; omega)
    · rw [if_neg h]
      exact ih _ _ _ _ hwx (fun u hu => hnone u (List.mem_cons_of_mem _ hu))

theorem winInner_hit (i : ℕ) (row : ℕ → ℕ) (wx j : ℕ) (l2 : List ℕ) (st : PPU) (vis : Bool)
    (hwx : st.registers.WX = wx)
    (h1 : 7 ≤ 8 * i + j + wx) (h2 : 8 * i + j + wx < 160)
    (hrest : ∀ j2 ∈ l2, 7 ≤ 8 * i + j2 + wx → 8 * i + j2 + wx < 160 →
      8 * i + j2 + wx - 7 ≠ 8 * i + j + wx - 7) :
    ((winInner i row (j :: l2) st vis).1).viewport st.registers.LY (8 * i + j + wx - 7)
      = decodePalette st (row j) := by
  rw [winInner]
  rw [hwx, if_pos ⟨h1, h2⟩]
  rw [winInner_untouched i row wx l2 _ true _ _ (by exact hwx) hrest]
  rw [writePixel_viewport, if_pos ⟨rfl, rfl⟩]

@[simp] theorem writePixel_registers (p : PPU) (r c v : ℕ) :
    (writePixel p r c v).registers = p.registers := rfl

theorem winInner_append (i : ℕ) (row : ℕ → ℕ) :
    ∀ (l1 l2 : List ℕ) (st : PPU) (vis : Bool),
      winInner i row (l1 ++ l2) st vis =
        winInner i row l2 (winInner i row l1 st vis).1 (winInner i row l1 st vis).2 := by
  intro l1
  induction l1 with
  | nil => intro l2 st vis; rfl
  | cons j js ih =>
    intro l2 st vis
    rw [List.cons_append, winInner, winInner]
    by_cases h : 7 ≤ 8 * i + j + st.registers.WX ∧ 8 * i + j + st.registers.WX < 160
    · rw [if_pos h, if_pos h]
      exact ih l2 _ _
    · rw [if_neg h, if_neg h]
      exact ih l2 _ _

theorem winInner_flag (i : ℕ) (row : ℕ → ℕ) (wx : ℕ) :
    ∀ (l : List ℕ) (st : PPU) (vis : Bool), st.registers.WX = wx →
      (winInner i row l st vis).2 =
        (vis || l.any fun j => decide (7 ≤ 8 * i + j + wx) && decide (8 * i + j + wx < 160)) := by
  intro l
  induction l with
  | nil => intro st vis _; simp [winInner]
  | cons j js ih =>
    intro st vis hwx
    rw [winInner, hwx]
    by_cases h : 7 ≤ 8 * i + j + wx ∧ 8 * i + j + wx < 160
    · rw [if_pos h]
      rw [ih _ true (by exact hwx)]
      rw [List.any_cons]
      have hc : (decide (7 ≤ 8 * i + j + wx) && decide (8 * i + j + wx < 160)) = true := by
        rw [← Bool.decide_and]
        exact decide_eq_true h
      rw [hc]
      simp
    · rw [if_neg h]
      rw [ih _ vis hwx, List.any_cons]
      have hc : (decide (7 ≤ 8 * i + j + wx) && decide (8 * i + j + wx < 160)) = false := by
        rw [← Bool.decide_and]
        exact decide_eq_false h
      rw [hc]
      simp

theorem winSlots_untouched (base wx : ℕ) :
    ∀ (l : List ℕ) (st : PPU) (vis : Bool) (a b : ℕ), st.registers.WX = wx →
      (∀ i ∈ l, ∀ j, j < 8 → 7 ≤ 8 * i + j + wx → 8 * i + j + wx < 160 →
        8 * i + j + wx - 7 ≠ b) →
      ((winSlots base l st vis).1).viewport a b = st.viewport a b := by
  intro l
  induction l with
  | nil => intro st vis a b _ _; rfl
  | cons i is ih =>
    intro st vis a b hwx hnone
    rw [winSlots]
    obtain ⟨w, hw⟩ := winInner_shape i
      (fun j => tilePixel st (vram st (base + 32 * (st.registers.WC / 8) + i))
        (st.registers.WC % 8) j) (List.range 8) st vis
    rw [ih _ _ a b (by rw [hw]; exact hwx)
      (fun i2 hi2 => hnone i2 (List.mem_cons_of_mem _ hi2))]
    exact winInner_untouched i _ wx (List.range 8) st vis a b hwx
      (fun j hj => hnone i (List.mem_cons_self _ _) j (List.mem_range.mp hj))

theorem winSlots_append (base : ℕ) :
    ∀ (l1 l2 : List ℕ) (st : PPU) (vis : Bool),
      winSlots base (l1 ++ l2) st vis =
        winSlots base l2 (winSlots base l1 st vis).1 (winSlots base l1 st vis).2 := by
  intro l1
  induction l1 with
  | nil => intro l2 st vis; rfl
  | cons i is ih =>
    intro l2 st vis
    rw [List.cons_append, winSlots, winSlots]
    exact ih l2 _ _

theorem winSlots_flag (base wx : ℕ) :
    ∀ (l : List ℕ) (st : PPU) (vis : Bool), st.registers.WX = wx →
      (winSlots base l st vis).2 =
        (vis || l.any fun i => (List.range 8).any fun j =>
          decide (7 ≤ 8 * i + j + wx) && decide (8 * i + j + wx < 160)) := by
  intro l
  induction l with
  | nil => intro st vis _; simp [winSlots]
  | cons i is ih =>
    intro st vis hwx
    rw [winSlots]
    obtain ⟨w, hw⟩ := winInner_shape i
      (fun j => tilePixel st (vram st (base + 32 * (st.registers.WC / 8) + i))
        (st.registers.WC % 8) j) (List.range 8) st vis
    rw [ih _ _ (by rw [hw]; exact hwx)]
    rw [winInner_flag i _ wx (List.range 8) st vis hwx]
    rw [List.any_cons]
    simp [Bool.or_assoc]

/-- The `window_visible` outcome of the window pass, as a function of the
state at entry: some placement `8*i + j + WX` lands in `[7, 160)`. -/
def winVisible (p : PPU) : Bool :=
  (List.range 32).any fun i => (List.range 8).any fun j =>
    decide (7 ≤ 8 * i + j + p.registers.WX) && decide (8 * i + j + p.registers.WX < 160)

theorem winVisible_congr {p q : PPU} (h : q.registers = p.registers) :
    winVisible q = winVisible p := by
  unfold winVisible
  rw [h]

theorem winPass_viewport (p : PPU) :
    (winPass p).viewport = ((winSlots (winMapBase p) (List.range 32) p false).1).viewport := by
  unfold winPass
  dsimp only
  by_cases hv : (winSlots (winMapBase p) (List.range 32) p false).2 = true
  · rw [if_pos hv]
  · rw [if_neg hv]

set_option maxRecDepth 4000 in
theorem winPass_WC (p : PPU) :
    (winPass p).registers.WC =
      if winVisible p then (p.registers.WC + 1) % 256 else p.registers.WC := by
  unfold winPass
  dsimp only
  have hflag : (winSlots (winMapBase p) (List.range 32) p false).2 = winVisible p := by
    have h := winSlots_flag (winMapBase p) p.registers.WX (List.range 32) p false rfl
    rw [Bool.false_or] at h
    rw [h]
    rfl
  obtain ⟨w, hw⟩ := winSlots_shape (winMapBase p) (List.range 32) p false
  rw [hflag]
  by_cases hv : winVisible p = true
  · rw [if_pos hv, if_pos hv, hw]
  · rw [if_neg hv, if_neg hv, hw]

theorem drawLine_WC_window (s : PPU) (h7 : s.registers.LCDC &&& 128 ≠ 0)
    (h5 : s.registers.LCDC &&& 32 ≠ 0) (hwy : s.registers.WY ≤ s.registers.LY) :
    (drawLine s).registers.WC =
      if winVisible s then (s.registers.WC + 1) % 256 else s.registers.WC := by
  unfold drawLine
  rw [if_pos h7]
  dsimp only
  by_cases h0 : s.registers.LCDC &&& 1 ≠ 0
  · rw [if_pos h0]
    have hreg := shape_viewport_registers (bgPass_shape s)
    rw [if_pos (show (bgPass s).registers.LCDC &&& 32 ≠ 0 ∧
        (bgPass s).registers.WY ≤ (bgPass s).registers.LY by
      rw [hreg]; exact ⟨h5, hwy⟩)]
    rw [winPass_WC, winVisible_congr hreg, hreg]
  · rw [if_neg h0]
    rw [if_pos ⟨h5, hwy⟩]
    exact winPass_WC s

/-- C7: when the compositor runs with the window enabled (`LCDC` bits 7 and 5
set, `WY <= LY`), the internal window line counter `WC` increments by exactly
one if at least one window pixel was placed on the line (`winVisible`, which
is equivalent to some placement `8*i + j + WX` landing in `[7, 160)`), stays
unchanged if none was, and in particular does not increment when `WX = 255`. -/
theorem c7_wc_increment (s : PPU)
    (h7 : s.registers.LCDC &&& 128 ≠ 0) (h5 : s.registers.LCDC &&& 32 ≠ 0)
    (hwy : s.registers.WY ≤ s.registers.LY) (hwc : s.registers.WC + 1 < 256) :
    ((winVisible s = true → (drawLine s).registers.WC = s.registers.WC + 1) ∧
     (winVisible s = false → (drawLine s).registers.WC = s.registers.WC)) ∧
    (winVisible s = true ↔ ∃ i, i < 32 ∧ ∃ j, j < 8 ∧
      7 ≤ 8 * i + j + s.registers.WX ∧ 8 * i + j + s.registers.WX < 160) ∧
    (s.registers.WX = 255 → (drawLine s).registers.WC = s.registers.WC) := by
  have hd := drawLine_WC_window s h7 h5 hwy
  have hiff : winVisible s = true ↔ ∃ i, i < 32 ∧ ∃ j, j < 8 ∧
      7 ≤ 8 * i + j + s.registers.WX ∧ 8 * i + j + s.registers.WX < 160 := by
    unfold winVisible
    simp only [List.any_eq_true, List.mem_range, Bool.and_eq_true, decide_eq_true_eq]
  refine ⟨⟨?_, ?_⟩, hiff, ?_⟩
  · intro hv
    rw [hd, if_pos hv, Nat.mod_eq_of_lt hwc]
  · intro hv
    rw [hd, if_neg (by rw [hv]; simp)]
  · intro h255
    have hvf : winVisible s = false := by
      cases hb : winVisible s
      · rfl
      · exfalso
        obtain ⟨i, hi, j, hj, h1, h2⟩ := hiff.mp hb
        omega
    rw [hd, if_neg (by rw [hvf]; simp)]

/-- C7 witness: from reset with `LCDC = 0xA0` (display and window on, `WX = 0`,
so the window is visible), one compositor run advances `WC` from 0 to 1. -/
theorem c7_wc_increment_witness :
    (drawLine { initPPU with registers.LCDC := 0xA0 }).registers.WC = 1 := by
  have h := c7_wc_increment { initPPU with registers.LCDC := 0xA0 }
    (by decide) (by decide) (by decide) (by decide)
  exact h.1.1 (by decide)

/-! ### Pointwise effect of the background pass on the viewport -/

theorem bgInner_untouched (i : ℕ) (row : ℕ → ℕ) (scx : ℕ) :
    ∀ (l : List ℕ) (st : PPU) (a b : ℕ), st.registers.SCX = scx →
      (∀ j ∈ l, (8 * i + j + 256 - scx) % 256 < 160 → (8 * i + j + 256 - scx) % 256 ≠ b) →
      (bgInner i row l st).viewport a b = st.viewport a b := by
  intro l
  induction l with
  | nil => intro st a b _ _; rfl
  | cons j js ih =>
    intro st a b hscx hnone
    rw [bgInner, hscx]
    by_cases h : (8 * i + j + 256 - scx) % 256 < 160
    · rw [if_pos h]
      rw [ih _ a b (by exact hscx) (fun u hu => hnone u (List.mem_cons_of_mem _ hu))]
      rw [writePixel_viewport, if_neg]
      rintro ⟨-, hb⟩
      exact hnone j (List.mem_cons_self _ _) h hb.symm
    · rw [if_neg h]
      exact ih _ a b hscx (fun u hu => hnone u (List.mem_cons_of_mem _ hu))

theorem bgInner_hit (i : ℕ) (row : ℕ → ℕ) (scx j : ℕ) (l2 : List ℕ) (st : PPU)
    (hscx : st.registers.SCX = scx)
    (h2 : (8 * i + j + 256 - scx) % 256 < 160)
    (hrest : ∀ j2 ∈ l2, (8 * i + j2 + 256 - scx) % 256 < 160 →
      (8 * i + j2 + 256 - scx) % 256 ≠ (8 * i + j + 256 - scx) % 256) :
    (bgInner i row (j :: l2) st).viewport st.registers.LY ((8 * i + j + 256 - scx) % 256)
      = decodePalette st (row j) := by
  rw [bgInner, hscx, if_pos h2]
  rw [bgInner_untouched i row scx l2 _ _ _ (by exact hscx) hrest]
  rw [writePixel_viewport, if_pos ⟨rfl, rfl⟩]

theorem bgInner_append (i : ℕ) (row : ℕ → ℕ) :
    ∀ (l1 l2 : List ℕ) (st : PPU),
      bgInner i row (l1 ++ l2) st = bgInner i row l2 (bgInner i row l1 st) := by
  intro l1
  induction l1 with
  | nil => intro l2 st; rfl
  | cons j js ih =>
    intro l2 st
    rw [List.cons_append, bgInner, bgInner]
    by_cases h : (8 * i + j + 256 - st.registers.SCX) % 256 < 160
    · rw [if_pos h]
      exact ih l2 _
    · rw [if_neg h]
      exact ih l2 _

theorem bgSlots_untouched (base bgY scx : ℕ) :
    ∀ (l : List ℕ) (st : PPU) (a b : ℕ), st.registers.SCX = scx →
      (∀ i ∈ l, ∀ j, j < 8 → (8 * i + j + 256 - scx) % 256 < 160 →
        (8 * i + j + 256 - scx) % 256 ≠ b) →
      (bgSlots base bgY l st).viewport a b = st.viewport a b := by
  intro l
  induction l with
  | nil => intro st a b _ _; rfl
  | cons i is ih =>
    intro st a b hscx hnone
    rw [bgSlots]
    obtain ⟨w, hw⟩ := bgInner_shape i
      (fun j => tilePixel st (vram st (base + 32 * (bgY / 8) + i)) (bgY % 8) j)
      (List.range 8) st
    rw [ih _ a b (by rw [hw]; exact hscx)
      (fun i2 hi2 => hnone i2 (List.mem_cons_of_mem _ hi2))]
    exact bgInner_untouched i _ scx (List.range 8) st a b hscx
      (fun j hj => hnone i (List.mem_cons_self _ _) j (List.mem_range.mp hj))

theorem bgSlots_hit (base bgY scx i j : ℕ) (hscx_lt : scx < 256) (hi : i < 32) (hj : j < 8)
    (h2 : (8 * i + j + 256 - scx) % 256 < 160) :
    ∀ (l2 : List ℕ) (st : PPU), st.registers.SCX = scx →
      (∀ i2 ∈ l2, i < i2 ∧ i2 < 32) →
      (bgSlots base bgY (i :: l2) st).viewport st.registers.LY
          ((8 * i + j + 256 - scx) % 256)
        = decodePalette st (tilePixel st (vram st (base + 32 * (bgY / 8) + i)) (bgY % 8) j) := by
  intro l2 st hscx hgt
  rw [bgSlots]
  obtain ⟨wr, hwr⟩ := bgInner_shape i
    (fun j2 => tilePixel st (vram st (base + 32 * (bgY / 8) + i)) (bgY % 8) j2)
    (List.range 8) st
  rw [bgSlots_untouched base bgY scx l2 _ _ _ (by rw [hwr]; exact hscx)
    (fun i2 hi2 j2 hj2 hA => by have := hgt i2 hi2; omega)]
  rw [range_split hj, bgInner_append]
  obtain ⟨w2, hw2⟩ := bgInner_shape i
    (fun j2 => tilePixel st (vram st (base + 32 * (bgY / 8) + i)) (bgY % 8) j2)
    (List.range j) st
  have hreg2 : (bgInner i
      (fun j2 => tilePixel st (vram st (base + 32 * (bgY / 8) + i)) (bgY % 8) j2)
      (List.range j) st).registers = st.registers := by
    rw [hw2]
  have hh := bgInner_hit i
    (fun j2 => tilePixel st (vram st (base + 32 * (bgY / 8) + i)) (bgY % 8) j2)
    scx j (List.range' (j + 1) (8 - j - 1))
    (bgInner i (fun j2 => tilePixel st (vram st (base + 32 * (bgY / 8) + i)) (bgY % 8) j2)
      (List.range j) st)
    (by rw [hw2]; exact hscx) h2
    (fun j2 hj2 hA => by rw [mem_range'_one] at hj2; omega)
  rw [hreg2] at hh
  rw [hh]
  rw [decodePalette_congr hreg2]

theorem bgSlots_append (base bgY : ℕ) :
    ∀ (l1 l2 : List ℕ) (st : PPU),
      bgSlots base bgY (l1 ++ l2) st = bgSlots base bgY l2 (bgSlots base bgY l1 st) := by
  intro l1
  induction l1 with
  | nil => intro l2 st; rfl
  | cons i is ih =>
    intro l2 st
    rw [List.cons_append, bgSlots, bgSlots]
    exact ih l2 _

theorem bgPass_hit (p : PPU) (i j : ℕ) (hi : i < 32) (hj : j < 8)
    (hscx : p.registers.SCX < 256)
    (h2 : (8 * i + j + 256 - p.registers.SCX) % 256 < 160) :
    (bgPass p).viewport p.registers.LY ((8 * i + j + 256 - p.registers.SCX) % 256)
      = decodePalette p (tilePixel p
          (vram p (bgMapBase p + 32 * (((p.registers.SCY + p.registers.LY) % 256) / 8) + i))
          (((p.registers.SCY + p.registers.LY) % 256) % 8) j) := by
  unfold bgPass
  rw [range_split hi, bgSlots_append]
  obtain ⟨w1, hw1⟩ := bgSlots_shape (bgMapBase p)
    ((p.registers.SCY + p.registers.LY) % 256) (List.range i) p
  have hreg1 : (bgSlots (bgMapBase p) ((p.registers.SCY + p.registers.LY) % 256)
      (List.range i) p).registers = p.registers := by
    rw [hw1]
  have hmem1 : (bgSlots (bgMapBase p) ((p.registers.SCY + p.registers.LY) % 256)
      (List.range i) p).memory = p.memory := by
    rw [hw1]
  have hh := bgSlots_hit (bgMapBase p) ((p.registers.SCY + p.registers.LY) % 256)
    p.registers.SCX i j hscx hi hj h2 (List.range' (i + 1) (32 - i - 1))
    (bgSlots (bgMapBase p) ((p.registers.SCY + p.registers.LY) % 256) (List.range i) p)
    (by rw [hw1]) (fun i2 hi2 => by rw [mem_range'_one] at hi2; omega)
  rw [hreg1] at hh
  rw [hh, decodePalette_congr hreg1, tilePixel_congr hreg1 hmem1, vram_congr hmem1]

theorem winSlots_hit (base wx i j : ℕ) (hj : j < 8)
    (h1 : 7 ≤ 8 * i + j + wx) (h2 : 8 * i + j + wx < 160) :
    ∀ (l2 : List ℕ) (st : PPU) (vis : Bool), st.registers.WX = wx →
      (∀ i2 ∈ l2, i < i2) →
      ((winSlots base (i :: l2) st vis).1).viewport st.registers.LY (8 * i + j + wx - 7)
        = decodePalette st (tilePixel st
            (vram st (base + 32 * (st.registers.WC / 8) + i)) (st.registers.WC % 8) j) := by
  intro l2 st vis hwx hgt
  rw [winSlots]
  obtain ⟨wr, hwr⟩ := winInner_shape i
    (fun j2 => tilePixel st (vram st (base + 32 * (st.registers.WC / 8) + i))
      (st.registers.WC % 8) j2) (List.range 8) st vis
  rw [winSlots_untouched base wx l2 _ _ _ _ (by rw [hwr]; exact hwx)
    (fun i2 hi2 j2 hj2 hA hB => by have := hgt i2 hi2; omega)]
  rw [range_split hj, winInner_append]
  obtain ⟨w2, hw2⟩ := winInner_shape i
    (fun j2 => tilePixel st (vram st (base + 32 * (st.registers.WC / 8) + i))
      (st.registers.WC % 8) j2) (List.range j) st vis
  have hreg2 : ((winInner i
      (fun j2 => tilePixel st (vram st (base + 32 * (st.registers.WC / 8) + i))
        (st.registers.WC % 8) j2) (List.range j) st vis).1).registers = st.registers := by
    rw [hw2]
  have hh := winInner_hit i
    (fun j2 => tilePixel st (vram st (base + 32 * (st.registers.WC / 8) + i))
      (st.registers.WC % 8) j2)
    wx j (List.range' (j + 1) (8 - j - 1))
    ((winInner i (fun j2 => tilePixel st (vram st (base + 32 * (st.registers.WC / 8) + i))
      (st.registers.WC % 8) j2) (List.range j) st vis).1)
    ((winInner i (fun j2 => tilePixel st (vram st (base + 32 * (st.registers.WC / 8) + i))
      (st.registers.WC % 8) j2) (List.range j) st vis).2)
    (by rw [hw2]; exact hwx) h1 h2
    (fun j2 hj2 hA hB => by rw [mem_range'_one] at hj2; omega)
  rw [hreg2] at hh
  rw [hh, decodePalette_congr hreg2]

theorem winPass_hit (p : PPU) (i j : ℕ) (hi : i < 32) (hj : j < 8)
    (h1 : 7 ≤ 8 * i + j + p.registers.WX) (h2 : 8 * i + j + p.registers.WX < 160) :
    (winPass p).viewport p.registers.LY (8 * i + j + p.registers.WX - 7)
      = decodePalette p (tilePixel p
          (vram p (winMapBase p + 32 * (p.registers.WC / 8) + i)) (p.registers.WC % 8) j) := by
  rw [winPass_viewport, range_split hi, winSlots_append]
  obtain ⟨w1, hw1⟩ := winSlots_shape (winMapBase p) (List.range i) p false
  have hreg1 : ((winSlots (winMapBase p) (List.range i) p false).1).registers
      = p.registers := by
    rw [hw1]
  have hmem1 : ((winSlots (winMapBase p) (List.range i) p false).1).memory = p.memory := by
    rw [hw1]
  have hh := winSlots_hit (winMapBase p) p.registers.WX i j hj h1 h2
    (List.range' (i + 1) (32 - i - 1))
    ((winSlots (winMapBase p) (List.range i) p false).1)
    ((winSlots (winMapBase p) (List.range i) p false).2)
    (by rw [hw1]) (fun i2 hi2 => by rw [mem_range'_one] at hi2; omega)
  rw [hreg1] at hh
  rw [hh, decodePalette_congr hreg1, tilePixel_congr hreg1 hmem1, vram_congr hmem1]

/-- C8: when the background layer renders, the vertical sample position is
`(SCY + LY) mod 256` (it selects the tilemap row `bgY / 8` and the tile row
`bgY % 8`), the pixel of slot `i`, column `j` lands at horizontal position
`(8*i + j - SCX) mod 256`, written only when that position is below the
visible width 160; columns at or beyond 160 are never written. -/
theorem c8_bg_placement (s : PPU) (i j : ℕ) (hi : i < 32) (hj : j < 8)
    (hscx : s.registers.SCX < 256) :
    ((8 * i + j + 256 - s.registers.SCX) % 256 < 160 →
      (bgPass s).viewport s.registers.LY ((8 * i + j + 256 - s.registers.SCX) % 256)
        = decodePalette s (tilePixel s
            (vram s (bgMapBase s + 32 * (((s.registers.SCY + s.registers.LY) % 256) / 8) + i))
            (((s.registers.SCY + s.registers.LY) % 256) % 8) j)) ∧
    (∀ r c, 160 ≤ c → (bgPass s).viewport r c = s.viewport r c) := by
  refine ⟨fun h2 => bgPass_hit s i j hi hj hscx h2, fun r c hc => ?_⟩
  unfold bgPass
  exact bgSlots_untouched _ _ s.registers.SCX (List.range 32) s r c rfl
    (fun i2 _ j2 _ hA => by omega)

/-- Reset state scrolled to `SCX = 250` with an all-dark palette, for the C8
witness. -/
def bgDemo : PPU := { initPPU with registers.SCX := 250, registers.BGP := 3 }

/-- C8 witness, the claim's own example: with `SCX = 250`, screen column 0
receives the sample of background column `250 = 8*31 + 2` (slot 31, column 2),
which decodes to shade 3 under `BGP = 3`. -/
theorem c8_bg_placement_witness : (bgPass bgDemo).viewport 0 0 = 3 := by
  have h := (c8_bg_placement bgDemo 31 2 (by norm_num) (by norm_num) (by decide)).1 (by decide)
  have hval : decodePalette bgDemo (tilePixel bgDemo
      (vram bgDemo (bgMapBase bgDemo + 32 * (((bgDemo.registers.SCY + bgDemo.registers.LY) % 256) / 8) + 31))
      (((bgDemo.registers.SCY + bgDemo.registers.LY) % 256) % 8) 2) = 3 := by decide
  rw [hval] at h
  have hly : bgDemo.registers.LY = 0 := rfl
  have hpos : (8 * 31 + 2 + 256 - bgDemo.registers.SCX) % 256 = 0 := by decide
  rw [hly, hpos] at h
  exact h

/-- The window placement rule exactly as claim C3 states it: pixel `(i, j)`
goes to screen position `8*i + j + WX - 7`, placements whose pre-offset
position is below 7 are discarded, and the placement is clipped to the full
visible width (screen position below 160). Written from the claim's words,
for comparison against the code. -/
def winSpecPlaces (p : PPU) (c : ℕ) : Bool :=
  (List.range 32).any fun i => (List.range 8).any fun j =>
    decide (7 ≤ 8 * i + j + p.registers.WX) &&
    decide (8 * i + j + p.registers.WX - 7 < 160) &&
    decide (8 * i + j + p.registers.WX - 7 = c)

/-- Reset state with display and window on and `WX = 166`, for the C3
counterexample. -/
def winDemoFar : PPU :=
  { initPPU with registers.LCDC := 0xA0, registers.WX := 166, registers.BGP := 3 }

set_option maxRecDepth 40000 in
/-- C3 counterexample: with `WX = 166` the claim's rule places window pixel
`(0, 0)` at screen column `166 - 7 = 159` (inside the visible width, and its
shade under `BGP = 3` would be 3), but the code clips at the pre-offset
position (`win_x < 160` before subtracting 7), so the compositor leaves
column 159 untouched at shade 0. -/
theorem c3_clip_counterexample :
    winSpecPlaces winDemoFar 159 = true ∧
    decodePalette winDemoFar 0 = 3 ∧
    (drawLine winDemoFar).viewport 0 159 = 0 := by
  refine ⟨by decide, by decide, by decide⟩

/-- C3 amended: each window pixel of slot `i`, column `j` is placed at screen
position `8*i + j + WX - 7`, with vertical indexing from the internal counter
`WC` (tilemap row `WC / 8`, tile row `WC % 8`), pre-offset positions below 7
are discarded, and the clip is applied to the pre-offset position
(`8*i + j + WX < 160`), so screen columns 153 and beyond are never written by
the window pass. -/
theorem c3_window_amended (s : PPU) (i j : ℕ) (hi : i < 32) (hj : j < 8)
    (h1 : 7 ≤ 8 * i + j + s.registers.WX) (h2 : 8 * i + j + s.registers.WX < 160) :
    ((winPass s).viewport s.registers.LY (8 * i + j + s.registers.WX - 7)
      = decodePalette s (tilePixel s
          (vram s (winMapBase s + 32 * (s.registers.WC / 8) + i)) (s.registers.WC % 8) j)) ∧
    (∀ r c, 153 ≤ c → (winPass s).viewport r c = s.viewport r c) := by
  refine ⟨winPass_hit s i j hi hj h1 h2, fun r c hc => ?_⟩
  rw [winPass_viewport]
  exact winSlots_untouched (winMapBase s) s.registers.WX (List.range 32) s false r c rfl
    (fun i2 _ j2 _ hA hB => by omega)

/-- Reset state with display and window on (`WX = 0`) and an all-dark palette,
for the C3 witness. -/
def winDemo : PPU := { initPPU with registers.LCDC := 0xA0, registers.BGP := 3 }

/-- C3 witness: with `WX = 0`, window pixel `(0, 7)` is placed at screen
column 0 with shade 3. -/
theorem c3_window_amended_witness : (winPass winDemo).viewport 0 0 = 3 := by
  have h := (c3_window_amended winDemo 0 7 (by norm_num) (by norm_num)
    (by decide) (by decide)).1
  have hval : decodePalette winDemo (tilePixel winDemo
      (vram winDemo (winMapBase winDemo + 32 * (winDemo.registers.WC / 8) + 0))
      (winDemo.registers.WC % 8) 7) = 3 := by decide
  rw [hval] at h
  have hly : winDemo.registers.LY = 0 := rfl
  have hpos : 8 * 0 + 7 + winDemo.registers.WX - 7 = 0 := by decide
  rw [hly, hpos] at h
  exact h
